import Mathlib

/-!
Verification of the stroke-capture and image-normalization pipeline of the
Japanese handwritten character recognition repository.

The embedding follows `src/hira_kata_kanji_kuzu.py` (class
`JapaneseCharacterRecognizer`) and `src/hiragana_gui.py` (class
`HiraganaRecognizer`).  Grayscale PIL images (mode "L") are embedded as
`List (List Nat)` (rows of pixel values, background 255).  NumPy float32
arithmetic is embedded over `ℚ`: the claims under study concern discrete
thresholds (pixel < 255, margin sizes, tie ordering, the 0.85 confidence
cut) where the rational model agrees with the float computation on the
inputs involved; each such point is noted at the definition it concerns.
The PIL `resize` operation (LANCZOS resp. the default filter) is an
interpolation whose exact kernel the claims never constrain, so it is a
parameter `resizeFn` of the embedding, universally quantified in the
theorems.
-/

namespace JpRec

/-- Grayscale raster image: a list of rows of pixel values (PIL mode "L",
background value 255, ink drawn with value 0). -/
abbrev Img : Type := List (List Nat)

/-- Width of an image, read off the first row (PIL images are rectangular). -/
def width (img : Img) : Nat := (img.headD []).length

/-- Pixel access with the background value 255 outside the stored grid. -/
def getPix (img : Img) (y x : Nat) : Nat := (img.getD y []).getD x 255

/-- Embedding of `mask = arr < 255; mask.any()` from `_preprocess_for_model`
(src/hira_kata_kanji_kuzu.py line 369/371): is any pixel strictly below the
background value? -/
def hasInk (img : Img) : Bool :=
  img.any fun row => row.any fun v => decide (v < 255)

/-- Row indices containing ink, ascending: the distinct values of `ys` in
`ys, xs = np.where(mask)` (line 374). -/
def inkYs (img : Img) : List Nat :=
  (List.range img.length).filter fun y => (img.getD y []).any fun v => decide (v < 255)

/-- Column indices containing ink, ascending: the distinct values of `xs` in
`ys, xs = np.where(mask)` (line 374). -/
def inkXs (img : Img) : List Nat :=
  (List.range (width img)).filter fun x => img.any fun row => decide (row.getD x 255 < 255)

/-- Embedding of the tight crop (lines 375-377):
`x1, x2 = xs.min(), xs.max(); y1, y2 = ys.min(), ys.max();`
`cropped = img.crop((x1, y1, x2 + 1, y2 + 1))` — PIL boxes are
right/bottom exclusive, so rows `y1..y2` and columns `x1..x2` inclusive. -/
def cropOf (img : Img) : Img :=
  let x1 := (inkXs img).min?.getD 0
  let x2 := (inkXs img).max?.getD 0
  let y1 := (inkYs img).min?.getD 0
  let y2 := (inkYs img).max?.getD 0
  ((img.drop y1).take (y2 + 1 - y1)).map fun row => (row.drop x1).take (x2 + 1 - x1)

/-- Embedding of `m = int(0.20 * max(w, h))` (line 379).  Python `int()`
truncates toward zero, and for every size `k` relevant here the float
product `0.20 * k` truncates to `⌊k / 5⌋` (the IEEE double nearest to 0.20
exceeds 1/5 by about 1.1e-17, far too little to push `0.20 * k` past the
next integer for k up to the canvas size), so the margin is `max w h / 5`
in natural-number division. -/
def marginOf (img : Img) : Nat :=
  max (width (cropOf img)) (cropOf img).length / 5

/-- Embedding of `canvas = Image.new("L", (W, H), 255); canvas.paste(sub, (px, py))`:
a W×H background-filled grid with `sub` pasted at offset `(px, py)`. -/
def newWhitePaste (W H : Nat) (sub : Img) (px py : Nat) : Img :=
  (List.range H).map fun y =>
    (List.range W).map fun x =>
      if py ≤ y ∧ y < py + sub.length ∧ px ≤ x ∧ x < px + width sub then
        getPix sub (y - py) (x - px)
      else 255

/-- Embedding of lines 380-381: `canvas = Image.new("L", (w + 2*m, h + 2*m), 255);`
`canvas.paste(cropped, (m, m))`. -/
def padImage (c : Img) (m : Nat) : Img :=
  newWhitePaste (width c + 2 * m) (c.length + 2 * m) c m m

/-- The padded crop stage of `_preprocess_for_model` applied to the canvas
image: pad the tight ink crop by the computed margin on all four sides. -/
def paddedOf (img : Img) : Img := padImage (cropOf img) (marginOf img)

/-- Embedding of lines 382-384: `side = max(canvas.size); square = Image.new(...);`
`square.paste(canvas, ((side-canvas.size[0])//2, (side-canvas.size[1])//2))`.
Python `//` is floor division, which on the nonnegative operands here is
natural-number division. -/
def squareOf (c : Img) : Img :=
  let side := max (width c) c.length
  newWhitePaste side side c ((side - width c) / 2) ((side - c.length) / 2)

/-- Pointwise embedding of lines 386-389 applied to a resized pixel `v`:
`inverted = ImageOps.invert(resized)` (pixel becomes `255 - v`),
`x = np.array(inverted, dtype=np.float32) / 255.0`, and
`x = np.clip(x * 1.2, 0, 1)`.  The float literal 1.2 is embedded as 6/5;
the clip bounds are hit exactly at the rational values the claims touch. -/
def contrastPix (v : Nat) : ℚ :=
  min (max ((((255 - v : Nat) : ℚ) / 255) * (6 / 5)) 0) 1

/-- Embedding of `_preprocess_for_model` (src/hira_kata_kanji_kuzu.py lines
366-390), with the resize interpolation abstracted as `resizeFn`.  The empty
branch (lines 371-373) builds `Image.new("L", (model_input, model_input), 255)`
and returns its array divided by 255.0 — note that branch performs no
inversion, so every entry is 255/255.  The final NumPy `reshape` to
(1, model_input, model_input, 1) is a trivial re-indexing of the same
model_input × model_input values and is embedded as the row/column grid
itself. -/
def preprocessForModel (resizeFn : Img → Nat → Img) (img : Img) (modelInput : Nat) :
    List (List ℚ) :=
  if hasInk img then
    (resizeFn (squareOf (paddedOf img)) modelInput).map fun row => row.map contrastPix
  else
    List.replicate modelInput (List.replicate modelInput ((255 : ℚ) / 255))

/-- Tensor entry access for the embedded model input, default 0. -/
def tensorAt (t : List (List ℚ)) (y x : Nat) : ℚ := (t.getD y []).getD x 0

end JpRec

namespace JpRec

/-! Small evaluation checks of the normalizer embedding on concrete images. -/

/-- An all-background 2×2 canvas. -/
def blankImg2 : Img := [[255, 255], [255, 255]]

/-- A 5×5 canvas whose ink forms a 3×3 block at rows 1-3, columns 1-3. -/
def inkImg3 : Img :=
  [[255, 255, 255, 255, 255],
   [255, 0, 0, 0, 255],
   [255, 0, 0, 0, 255],
   [255, 0, 0, 0, 255],
   [255, 255, 255, 255, 255]]

/-- Identity stand-in for the resize interpolation, used where a concrete
instantiation is needed on branches that never reach the resize. -/
def resizeId : Img → Nat → Img := fun i _ => i

example : hasInk blankImg2 = false := by decide

example : hasInk inkImg3 = true := by decide

example : cropOf inkImg3 = [[0, 0, 0], [0, 0, 0], [0, 0, 0]] := by decide

example : marginOf inkImg3 = 0 := by decide

/-- Lookup into the grid built from `List.range`: inside the height it is the
generating function, outside it is the default. -/
theorem getD_map_range {α : Type} (f : Nat → α) (n i : Nat) (d : α) :
    ((List.range n).map f).getD i d = if i < n then f i else d := by
  by_cases h : i < n
  · rw [if_pos h, List.getD_eq_getElem?_getD, List.getElem?_map, List.getElem?_range h]
    rfl
  · rw [if_neg h, List.getD_eq_getElem?_getD, List.getElem?_map, List.getElem?_eq_none]
    · rfl
    · simpa [List.length_range] using Nat.le_of_not_lt h

/-- Width re-expressed through row lookup. -/
theorem width_eq_getD (img : Img) : width img = (img.getD 0 []).length := by
  cases img <;> rfl

/-- Pixel characterization of the fresh-canvas-plus-paste operation. -/
theorem getPix_newWhitePaste (W H : Nat) (sub : Img) (px py y x : Nat) :
    getPix (newWhitePaste W H sub px py) y x =
      if y < H ∧ x < W ∧ py ≤ y ∧ y < py + sub.length ∧ px ≤ x ∧ x < px + width sub then
        getPix sub (y - py) (x - px)
      else 255 := by
  rw [getPix, newWhitePaste, getD_map_range]
  by_cases hy : y < H
  · rw [if_pos hy, getD_map_range]
    by_cases hx : x < W
    · rw [if_pos hx]
      by_cases hin : py ≤ y ∧ y < py + sub.length ∧ px ≤ x ∧ x < px + width sub
      · rw [if_pos hin, if_pos ⟨hy, hx, hin⟩]
      · rw [if_neg hin,
            if_neg (fun hc => hin ⟨hc.2.2.1, hc.2.2.2.1, hc.2.2.2.2.1, hc.2.2.2.2.2⟩)]
    · rw [if_neg hx, if_neg (fun hc => hx hc.2.1)]
  · rw [if_neg hy, if_neg (fun hc => hy hc.1)]
    simp [getPix]

/-- Pixel characterization of the padding stage: inside the pasted window the
crop's pixels, background 255 everywhere else (the `y < H`, `x < W` grid
bounds are implied by the window bounds). -/
theorem getPix_padImage (c : Img) (m y x : Nat) :
    getPix (padImage c m) y x =
      if m ≤ y ∧ y < m + c.length ∧ m ≤ x ∧ x < m + width c then
        getPix c (y - m) (x - m)
      else 255 := by
  rw [padImage, getPix_newWhitePaste]
  by_cases h : m ≤ y ∧ y < m + c.length ∧ m ≤ x ∧ x < m + width c
  · rw [if_pos h, if_pos ⟨by omega, by omega, h.1, h.2.1, h.2.2.1, h.2.2.2⟩]
  · rw [if_neg h, if_neg]
    intro hc
    exact h ⟨hc.2.2.1, hc.2.2.2.1, hc.2.2.2.2.1, hc.2.2.2.2.2⟩

/-- Row count of the padding stage. -/
theorem padImage_length (c : Img) (m : Nat) :
    (padImage c m).length = c.length + 2 * m := by
  simp [padImage, newWhitePaste]

/-- Column count of the padding stage. -/
theorem padImage_width (c : Img) (m : Nat) :
    width (padImage c m) = width c + 2 * m := by
  rw [width_eq_getD, padImage, newWhitePaste, getD_map_range]
  by_cases h : 0 < c.length + 2 * m
  · rw [if_pos h]
    simp
  · rw [if_neg h]
    have hc : c.length = 0 := by omega
    have hm : m = 0 := by omega
    have : c = [] := List.length_eq_zero.mp hc
    subst this
    simp [width, hm]

/-- An image with no pixel strictly below 255 has no ink. -/
theorem hasInk_eq_false_of_background (img : Img)
    (h : ∀ row ∈ img, ∀ v ∈ row, 255 ≤ v) : hasInk img = false := by
  rw [hasInk, List.any_eq_false]
  intro row hrow
  rw [Bool.not_eq_true, List.any_eq_false]
  intro v hv
  rw [Bool.not_eq_true, decide_eq_false_iff_not]
  exact Nat.not_lt.mpr (h row hrow v hv)

/-- C1 (counterexample to the stated polarity): on the all-background 2×2
canvas the empty branch of `_preprocess_for_model` returns the white image
divided by 255 without inverting it, so every entry of the tensor is 1,
not the low background value 0 that the `NormalizedTensor` polarity (ink
high, background low) would require. -/
theorem preprocess_blank_polarity_counterexample :
    tensorAt (preprocessForModel resizeId blankImg2 3) 0 0 = 1 ∧ (1 : ℚ) ≠ 0 := by
  constructor
  · have hf : hasInk blankImg2 = false := by decide
    rw [preprocessForModel, hf]
    simp [tensorAt]
  · norm_num

/-- C1 (amended): for every all-background canvas (no pixel strictly below
255) and every target size `m`, `_preprocess_for_model` returns, without
erroring, a blank tensor of shape `m × m` (embedding the reported
(1, m, m, 1) shape) all of whose entries are 1.0 — the background value in
the un-inverted CanvasImage polarity, since the empty branch skips the
inversion step. -/
theorem preprocess_blank_canvas (resizeFn : Img → Nat → Img) (img : Img) (m : Nat)
    (h : ∀ row ∈ img, ∀ v ∈ row, 255 ≤ v) :
    preprocessForModel resizeFn img m = List.replicate m (List.replicate m 1) := by
  rw [preprocessForModel, hasInk_eq_false_of_background img h]
  norm_num

/-- Witness for `preprocess_blank_canvas` at the concrete all-background
2×2 canvas with target size 3. -/
theorem preprocess_blank_canvas_witness :
    (∀ row ∈ blankImg2, ∀ v ∈ row, 255 ≤ v) ∧
    preprocessForModel resizeId blankImg2 3 = List.replicate 3 (List.replicate 3 1) :=
  ⟨by decide, preprocess_blank_canvas resizeId blankImg2 3 (by decide)⟩

/-- C2 (counterexample to `round`): on the canvas whose ink crop is 3×3 the
code's margin `int(0.20 * 3) = 0` differs from the claimed
`round(0.20 * 3) = 1` (for crop sides `k` the product `0.20 * k` never has
fractional part 1/2, so Python's banker-rounding `round` agrees with the
natural-number expression `(2 * k + 5) / 10`), and the padded image indeed
keeps the 3×3 crop size instead of growing to 5×5. -/
theorem padding_margin_counterexample :
    marginOf inkImg3 = 0 ∧
    (2 * max (width (cropOf inkImg3)) (cropOf inkImg3).length + 5) / 10 = 1 ∧
    (0 : Nat) ≠ 1 ∧
    (paddedOf inkImg3).length = 3 ∧ width (paddedOf inkImg3) = 3 := by
  refine ⟨by decide, by decide, by decide, by decide, by decide⟩

/-- C2 (amended): for every canvas with at least one ink pixel the margin
added by `_preprocess_for_model` on all four sides of the tight ink crop is
`⌊0.20 * max(crop_width, crop_height)⌋` pixels (Python `int()` truncation,
not `round`), filled with background: the padded stage is larger by twice
the margin in each dimension, carries the crop at offset (margin, margin),
and is 255 everywhere outside that window. -/
theorem padding_margin_floor (img : Img) (h : hasInk img = true) :
    marginOf img = max (width (cropOf img)) (cropOf img).length / 5 ∧
    (paddedOf img).length = (cropOf img).length + 2 * marginOf img ∧
    width (paddedOf img) = width (cropOf img) + 2 * marginOf img ∧
    (∀ i j, i < (cropOf img).length → j < width (cropOf img) →
      getPix (paddedOf img) (marginOf img + i) (marginOf img + j) =
        getPix (cropOf img) i j) ∧
    (∀ y x,
      ¬(marginOf img ≤ y ∧ y < marginOf img + (cropOf img).length ∧
        marginOf img ≤ x ∧ x < marginOf img + width (cropOf img)) →
      getPix (paddedOf img) y x = 255) := by
  refine ⟨rfl, padImage_length _ _, padImage_width _ _, ?_, ?_⟩
  · intro i j hi hj
    rw [paddedOf, getPix_padImage,
        if_pos ⟨Nat.le_add_right _ _, by omega, Nat.le_add_right _ _, by omega⟩]
    congr 1 <;> omega
  · intro y x hout
    rw [paddedOf, getPix_padImage, if_neg hout]

/-- Witness for `padding_margin_floor` at the concrete 5×5 canvas with a
3×3 ink block. -/
theorem padding_margin_floor_witness :
    hasInk inkImg3 = true ∧
    (marginOf inkImg3 = max (width (cropOf inkImg3)) (cropOf inkImg3).length / 5 ∧
     (paddedOf inkImg3).length = (cropOf inkImg3).length + 2 * marginOf inkImg3 ∧
     width (paddedOf inkImg3) = width (cropOf inkImg3) + 2 * marginOf inkImg3 ∧
     (∀ i j, i < (cropOf inkImg3).length → j < width (cropOf inkImg3) →
       getPix (paddedOf inkImg3) (marginOf inkImg3 + i) (marginOf inkImg3 + j) =
         getPix (cropOf inkImg3) i j) ∧
     (∀ y x,
       ¬(marginOf inkImg3 ≤ y ∧ y < marginOf inkImg3 + (cropOf inkImg3).length ∧
         marginOf inkImg3 ≤ x ∧ x < marginOf inkImg3 + width (cropOf inkImg3)) →
       getPix (paddedOf inkImg3) y x = 255)) :=
  ⟨by decide, padding_margin_floor inkImg3 (by decide)⟩

/-- Script family selected by the radio buttons (`self.current_mode`). -/
inductive Mode : Type
  | hiragana
  | katakana
  | kanji
  | kuzushiji
deriving DecidableEq

/-- Display language (`self.current_language`). -/
inductive Lang : Type
  | en
  | jp
deriving DecidableEq

/-- A drawn line segment `(last_x, last_y, event.x, event.y)` as stored by
`_paint`. -/
abbrev Seg : Type := ℤ × ℤ × ℤ × ℤ

/-- A stroke as stored in `self.strokes`: the list of
`((x1, y1, x2, y2), line_width)` pairs appended by `_paint`. -/
abbrev Stroke : Type := List (Seg × Nat)

/-- State of `JapaneseCharacterRecognizer` (src/hira_kata_kanji_kuzu.py)
relevant to the claims: the drawing state (`last_x`/`last_y` as one optional
pair, `self.image`, `self.strokes`, `self.redo_stack`, `self.line_width`),
the mode and label-table selection, and the displayed results
(`result_label` text, `conf_bar` value, the top-5 table rows, and the
mode status label).  The bitmap type `Img'` and the label-table type `LT`
are parameters: the CanvasImage is only ever produced by the blank
constructor and the segment-drawing primitive, both abstract here. -/
structure AppState (Img' LT : Type) where
  currentMode : Mode
  currentLabels : LT
  currentLanguage : Lang
  lastPos : Option (ℤ × ℤ)
  image : Img'
  strokes : List Stroke
  redoStack : List Stroke
  lineWidth : Nat
  resultText : String
  confBarValue : Nat
  tableRows : List (String × String)
  modeLabelText : String
deriving DecidableEq

variable {Img' LT : Type}

/-- Embedding of `_reset_results` (lines 359-364): default result text for
the current language, confidence bar to 0, table emptied. -/
def resetResults (s : AppState Img' LT) : AppState Img' LT :=
  { s with
    resultText :=
      if s.currentLanguage = Lang.en then "Please draw a character" else "文字を描いてください",
    confBarValue := 0,
    tableRows := [] }

/-- Mode status label text set by `change_mode` (lines 269-278). -/
def modeText (m : Mode) (lg : Lang) : String :=
  match m, lg with
  | Mode.hiragana, Lang.en => "Current mode: Hiragana"
  | Mode.hiragana, Lang.jp => "現在のモード: ひらがな"
  | Mode.katakana, Lang.en => "Current mode: Katakana"
  | Mode.katakana, Lang.jp => "現在のモード: カタカナ"
  | Mode.kanji, Lang.en => "Current mode: Kanji"
  | Mode.kanji, Lang.jp => "現在のモード: 漢字"
  | Mode.kuzushiji, Lang.en => "Current mode: Kuzushiji"
  | Mode.kuzushiji, Lang.jp => "現在のモード: くずし字"

/-- Embedding of `change_mode` (lines 265-279): store the selected mode,
select its label table, update the mode status label, reset the displayed
results. -/
def changeMode (tables : Mode → LT) (s : AppState Img' LT) (m : Mode) : AppState Img' LT :=
  resetResults
    { s with
      currentMode := m,
      currentLabels := tables m,
      modeLabelText := modeText m s.currentLanguage }

/-- Embedding of `_start_stroke` (lines 284-287): record the event position,
append a fresh empty stroke, clear the redo stack. -/
def startStroke (s : AppState Img' LT) (x y : ℤ) : AppState Img' LT :=
  { s with lastPos := some (x, y), strokes := s.strokes ++ [[]], redoStack := [] }

/-- Appending an entry to the last stroke, `self.strokes[-1].append(...)`:
`none` embeds the IndexError Python raises when the stroke list is empty. -/
def appendToLast (sts : List Stroke) (e : Seg × Nat) : Option (List Stroke) :=
  match sts with
  | [] => none
  | [st] => some [st ++ [e]]
  | st :: rest => (appendToLast rest e).map fun r => st :: r

/-- Embedding of `_paint` (lines 289-298): with no recorded position the
event position is stored and nothing is drawn or appended; otherwise the
segment from the recorded position to the event position is drawn onto the
image, appended to the last stroke with the current brush width, and the
recorded position advances to the event position. -/
def paint (drawSeg : Img' → Seg → Nat → Img') (s : AppState Img' LT) (x y : ℤ) :
    Option (AppState Img' LT) :=
  match s.lastPos with
  | none => some { s with lastPos := some (x, y) }
  | some (lx, ly) =>
    (appendToLast s.strokes ((lx, ly, x, y), s.lineWidth)).map fun sts =>
      { s with
        image := drawSeg s.image (lx, ly, x, y) s.lineWidth,
        strokes := sts,
        lastPos := some (x, y) }

/-- Embedding of `_end_stroke` (lines 300-303): the recorded position is
cleared.  The optional auto-recognize call only reads the image and writes
the result widgets, so it touches none of the stroke-capture state. -/
def endStroke (s : AppState Img' LT) : AppState Img' LT :=
  { s with lastPos := none }

/-- Embedding of `_redraw_from_strokes` (lines 345-354) restricted to the
PIL image: a fresh blank bitmap onto which every segment of every committed
stroke is redrawn in original order. -/
def replayImg (blank : Img') (drawSeg : Img' → Seg → Nat → Img') (sts : List Stroke) : Img' :=
  sts.foldl (fun im st => st.foldl (fun im2 e => drawSeg im2 e.1 e.2) im) blank

/-- Embedding of `undo` (lines 311-316): pop the last committed stroke onto
the redo stack, rebuild the image by full replay, reset results; no-op when
nothing is committed. -/
def undo (blank : Img') (drawSeg : Img' → Seg → Nat → Img') (s : AppState Img' LT) :
    AppState Img' LT :=
  match s.strokes.getLast? with
  | none => s
  | some st =>
    resetResults
      { s with
        strokes := s.strokes.dropLast,
        redoStack := s.redoStack ++ [st],
        image := replayImg blank drawSeg s.strokes.dropLast }

/-- Embedding of `redo` (lines 318-323): pop the last undone stroke back
onto the committed sequence, rebuild the image by full replay, reset
results; no-op when the redo stack is empty. -/
def redo (blank : Img') (drawSeg : Img' → Seg → Nat → Img') (s : AppState Img' LT) :
    AppState Img' LT :=
  match s.redoStack.getLast? with
  | none => s
  | some st =>
    resetResults
      { s with
        redoStack := s.redoStack.dropLast,
        strokes := s.strokes ++ [st],
        image := replayImg blank drawSeg (s.strokes ++ [st]) }

/-- Embedding of `clear_canvas` (lines 325-332): fresh blank image, both
stroke sequences emptied, results reset.  Note `last_x`/`last_y` are not
touched by this handler. -/
def clearCanvas (blank : Img') (s : AppState Img' LT) : AppState Img' LT :=
  resetResults { s with image := blank, strokes := [], redoStack := [] }

/-- Pointer events driving the stroke-capture handlers: `<Button-1>` runs
`_start_stroke`, `<B1-Motion>` runs `_paint`, `<ButtonRelease-1>` runs
`_end_stroke`. -/
inductive Ev : Type
  | down (x y : ℤ)
  | move (x y : ℤ)
  | up
deriving DecidableEq

/-- One pointer event dispatched to its handler. -/
def stepEv (drawSeg : Img' → Seg → Nat → Img') (s : AppState Img' LT) :
    Ev → Option (AppState Img' LT)
  | Ev.down x y => some (startStroke s x y)
  | Ev.move x y => paint drawSeg s x y
  | Ev.up => some (endStroke s)

/-- A whole pointer-event sequence, run left to right. -/
def runEvents (drawSeg : Img' → Seg → Nat → Img') (s : AppState Img' LT) (evs : List Ev) :
    Option (AppState Img' LT) :=
  evs.foldlM (stepEv drawSeg) s

/-- State built by `__init__` (lines 57-76): hiragana mode, English, no
recorded position, blank image, empty stroke and redo lists, brush width 7,
and the initial result widgets. -/
def initState (blank : Img') (tables : Mode → LT) : AppState Img' LT :=
  { currentMode := Mode.hiragana,
    currentLabels := tables Mode.hiragana,
    currentLanguage := Lang.en,
    lastPos := none,
    image := blank,
    strokes := [],
    redoStack := [],
    lineWidth := 7,
    resultText := "Please draw a character",
    confBarValue := 0,
    tableRows := [],
    modeLabelText := "Current mode: Hiragana" }

/-- Replaying after appending a fresh empty stroke draws nothing new. -/
theorem replayImg_append_empty (blank : Img') (drawSeg : Img' → Seg → Nat → Img')
    (sts : List Stroke) :
    replayImg blank drawSeg (sts ++ [[]]) = replayImg blank drawSeg sts := by
  simp [replayImg, List.foldl_append]

/-- Replaying after appending one entry to the last stroke equals drawing
that entry on top of the replay of the original strokes. -/
theorem replayImg_appendToLast (drawSeg : Img' → Seg → Nat → Img') (e : Seg × Nat) :
    ∀ (sts sts' : List Stroke) (blank : Img'),
      appendToLast sts e = some sts' →
      replayImg blank drawSeg sts' = drawSeg (replayImg blank drawSeg sts) e.1 e.2 := by
  intro sts
  induction sts with
  | nil =>
    intro sts' blank h
    have h2 : (none : Option (List Stroke)) = some sts' := h
    exact Option.noConfusion h2
  | cons st rest ih =>
    intro sts' blank h
    cases rest with
    | nil =>
      simp only [appendToLast, Option.some.injEq] at h
      subst h
      simp [replayImg, List.foldl_append]
    | cons st2 rest2 =>
      rw [show appendToLast (st :: st2 :: rest2) e
            = (appendToLast (st2 :: rest2) e).map fun r => st :: r from rfl] at h
      cases hr : appendToLast (st2 :: rest2) e with
      | none => rw [hr] at h; simp at h
      | some r =>
        rw [hr] at h
        simp only [Option.map_some', Option.some.injEq] at h
        subst h
        have hstep := ih r (st.foldl (fun im2 e2 => drawSeg im2 e2.1 e2.2) blank) hr
        simpa [replayImg] using hstep

/-- One pointer event preserves the cache invariant: the incrementally
maintained image equals the full replay of the committed strokes. -/
theorem stepEv_preserves_replay (blank : Img') (drawSeg : Img' → Seg → Nat → Img')
    (s s' : AppState Img' LT) (e : Ev)
    (hinv : s.image = replayImg blank drawSeg s.strokes)
    (h : stepEv drawSeg s e = some s') :
    s'.image = replayImg blank drawSeg s'.strokes := by
  cases e with
  | down x y =>
    simp only [stepEv, Option.some.injEq] at h
    subst h
    simpa [startStroke, replayImg_append_empty] using hinv
  | up =>
    simp only [stepEv, Option.some.injEq] at h
    subst h
    simpa [endStroke] using hinv
  | move x y =>
    simp only [stepEv, paint] at h
    cases hl : s.lastPos with
    | none =>
      rw [hl] at h
      simp only [Option.some.injEq] at h
      subst h
      simpa using hinv
    | some p =>
      obtain ⟨lx, ly⟩ := p
      rw [hl] at h
      cases ha : appendToLast s.strokes ((lx, ly, x, y), s.lineWidth) with
      | none =>
        simp only [ha, Option.map_none'] at h
        simp at h
      | some sts =>
        simp only [ha, Option.map_some', Option.some.injEq] at h
        subst h
        have hrep := replayImg_appendToLast drawSeg ((lx, ly, x, y), s.lineWidth)
          s.strokes sts blank ha
        simp only [hrep, hinv]

/-- Running any pointer-event sequence preserves the cache invariant. -/
theorem runEvents_preserves_replay (blank : Img') (drawSeg : Img' → Seg → Nat → Img') :
    ∀ (evs : List Ev) (s0 s : AppState Img' LT),
      s0.image = replayImg blank drawSeg s0.strokes →
      runEvents drawSeg s0 evs = some s →
      s.image = replayImg blank drawSeg s.strokes := by
  intro evs
  induction evs with
  | nil =>
    intro s0 s h0 hs
    simp only [runEvents, List.foldlM_nil, Option.pure_def, Option.some.injEq] at hs
    subst hs
    exact h0
  | cons e t ih =>
    intro s0 s h0 hs
    rw [runEvents, List.foldlM_cons] at hs
    cases he : stepEv drawSeg s0 e with
    | none => rw [he] at hs; simp at hs
    | some s1 =>
      rw [he] at hs
      simp only [Option.bind_eq_bind, Option.some_bind] at hs
      exact ih s1 s (stepEv_preserves_replay blank drawSeg s0 s1 e h0 he) hs

/-- C4 (confirmed): for every stroke log built by any sequence of
begin-stroke, extend-stroke and end-stroke pointer events from session
start, the incrementally drawn CanvasImage equals the image produced by a
full replay from a blank bitmap of every segment of every committed stroke
in original order — for every choice of bitmap representation and
segment-drawing primitive. -/
theorem replay_determinism (blank : Img') (drawSeg : Img' → Seg → Nat → Img')
    (tables : Mode → LT) (evs : List Ev) (s : AppState Img' LT)
    (h : runEvents drawSeg (initState blank tables) evs = some s) :
    s.image = replayImg blank drawSeg s.strokes :=
  runEvents_preserves_replay blank drawSeg evs (initState blank tables) s rfl h

/-- Concrete bitmap representation for witnesses: the list of drawn
(segment, width) commands. -/
abbrev CImg : Type := List (Seg × Nat)

/-- Concrete blank bitmap. -/
def cBlank : CImg := []

/-- Concrete segment-drawing primitive: record the drawn command. -/
def cDraw : CImg → Seg → Nat → CImg := fun im sg w => im ++ [(sg, w)]

/-- Concrete label tables for witnesses. -/
def cTables : Mode → List String := fun _ => []

/-- Concrete session-start state for witnesses. -/
def cInit : AppState CImg (List String) := initState cBlank cTables

/-- Concrete state after the pointer sequence down(0,0), move(1,1), up. -/
def cAfter : AppState CImg (List String) :=
  { cInit with lastPos := none, strokes := [[((0, 0, 1, 1), 7)]], image := [((0, 0, 1, 1), 7)] }

/-- Witness for `replay_determinism`: a concrete one-stroke event sequence. -/
theorem replay_determinism_witness :
    cAfter.image = replayImg cBlank cDraw cAfter.strokes :=
  replay_determinism cBlank cDraw cTables [Ev.down 0 0, Ev.move 1 1, Ev.up] cAfter (by rfl)

/-- C5 (confirmed): on every state whose committed stroke sequence is
non-empty, `undo` moves the last committed stroke to the redo stack and
`redo` immediately after moves it back, restoring both the committed
sequence and the redo stack to their pre-undo contents. -/
theorem undo_redo_inverse (blank : Img') (drawSeg : Img' → Seg → Nat → Img')
    (s : AppState Img' LT) (h : s.strokes ≠ []) :
    (redo blank drawSeg (undo blank drawSeg s)).strokes = s.strokes ∧
    (redo blank drawSeg (undo blank drawSeg s)).redoStack = s.redoStack ∧
    (undo blank drawSeg s).strokes = s.strokes.dropLast ∧
    (undo blank drawSeg s).redoStack = s.redoStack ++ [s.strokes.getLast h] := by
  have hl : s.strokes.getLast? = some (s.strokes.getLast h) := List.getLast?_eq_getLast _ h
  refine ⟨?_, ?_, ?_, ?_⟩ <;>
    simp only [undo, redo, resetResults, hl, List.getLast?_concat, List.dropLast_concat]
  exact List.dropLast_append_getLast h

/-- Witness for `undo_redo_inverse` on the state holding one committed
(empty) stroke. -/
theorem undo_redo_inverse_witness :
    (redo cBlank cDraw (undo cBlank cDraw (startStroke cInit 0 0))).strokes
      = (startStroke cInit 0 0).strokes ∧
    (redo cBlank cDraw (undo cBlank cDraw (startStroke cInit 0 0))).redoStack
      = (startStroke cInit 0 0).redoStack :=
  ⟨(undo_redo_inverse cBlank cDraw (startStroke cInit 0 0) (by decide)).1,
   (undo_redo_inverse cBlank cDraw (startStroke cInit 0 0) (by decide)).2.1⟩

/-- C6 (confirmed): `_start_stroke` clears the redo stack, so a `redo`
issued right after beginning a new stroke — in particular after any
sequence of undos — is a no-op leaving the whole state (both sequences
included) unchanged. -/
theorem begin_stroke_clears_redo (blank : Img') (drawSeg : Img' → Seg → Nat → Img')
    (s : AppState Img' LT) (x y : ℤ) :
    (startStroke s x y).redoStack = [] ∧
    redo blank drawSeg (startStroke s x y) = startStroke s x y :=
  ⟨rfl, rfl⟩

/-- C7 (counterexample): `_paint` with no begun stroke does not fail with
`NoActiveStroke` — on the session-start state it silently records the event
position, and after a stroke has been ended (down, up) two further move
events silently append a segment to the already-ended stroke. -/
theorem extend_without_begin_counterexample :
    paint cDraw cInit 1 1 = some { cInit with lastPos := some (1, 1) } ∧
    paint cDraw cInit 1 1 ≠ none ∧
    runEvents cDraw cInit [Ev.down 0 0, Ev.up, Ev.move 1 1, Ev.move 2 2]
      = some { cInit with
               lastPos := some (2, 2),
               strokes := [[((1, 1, 2, 2), 7)]],
               image := [((1, 1, 2, 2), 7)] } := by
  refine ⟨rfl, ?_, rfl⟩
  intro hc
  exact Option.noConfusion ((rfl :
    paint cDraw cInit 1 1 = some { cInit with lastPos := some (1, 1) }).symm.trans hc)

/-- C7 (amended): extending with no stroke open and no recorded pointer
position does not fail: `_paint` silently stores the event position and
returns without drawing or appending.  (With a recorded position it appends
to the most recently committed stroke even if that stroke was already
ended, and raises an index error — not `NoActiveStroke` — only when the
stroke list is empty; see the clear-mid-stroke theorem.) -/
theorem paint_without_active_stroke (drawSeg : Img' → Seg → Nat → Img')
    (s : AppState Img' LT) (x y : ℤ) (h : s.lastPos = none) :
    paint drawSeg s x y = some { s with lastPos := some (x, y) } := by
  simp only [paint, h]

/-- Witness for `paint_without_active_stroke` at the session-start state. -/
theorem paint_without_active_stroke_witness :
    paint cDraw cInit 2 3 = some { cInit with lastPos := some (2, 3) } :=
  paint_without_active_stroke cDraw cInit 2 3 rfl

/-- C8 (confirmed): `_paint` is total only when the committed stroke list is
non-empty whenever a pointer position is recorded — with no recorded
position it just stores the event position; with a recorded position and an
empty stroke list it hits the out-of-bounds `self.strokes[-1]`; and since
`clear_canvas` preserves `last_x`/`last_y`, clearing mid-stroke makes the
very next `_paint` crash. -/
theorem paint_clear_midstroke_crash (blank : Img') (drawSeg : Img' → Seg → Nat → Img')
    (s : AppState Img' LT) (x y a b : ℤ) :
    ((clearCanvas blank s).lastPos = s.lastPos) ∧
    (∀ p, s.lastPos = some p → s.strokes = [] → paint drawSeg s x y = none) ∧
    (s.lastPos = none → paint drawSeg s x y = some { s with lastPos := some (x, y) }) ∧
    (paint drawSeg (clearCanvas blank (startStroke s a b)) x y = none) := by
  refine ⟨rfl, ?_, ?_, rfl⟩
  · intro p hp he
    obtain ⟨px, py⟩ := p
    simp only [paint, hp, he, appendToLast, Option.map_none']
  · intro hn
    simp only [paint, hn]

/-- Witness for `paint_clear_midstroke_crash` at concrete states. -/
theorem paint_clear_midstroke_crash_witness :
    paint cDraw { cInit with lastPos := some (0, 0) } 1 2 = none ∧
    paint cDraw cInit 1 2 = some { cInit with lastPos := some (1, 2) } ∧
    paint cDraw (clearCanvas cBlank (startStroke cInit 3 4)) 1 2 = none :=
  ⟨(paint_clear_midstroke_crash cBlank cDraw { cInit with lastPos := some (0, 0) }
      1 2 3 4).2.1 (0, 0) rfl rfl,
   (paint_clear_midstroke_crash cBlank cDraw cInit 1 2 3 4).2.2.1 rfl,
   (paint_clear_midstroke_crash cBlank cDraw cInit 1 2 3 4).2.2.2⟩

/-- C10 (confirmed): `change_mode` leaves the stroke log, the redo stack,
the CanvasImage, the recorded pointer position, the brush width and the
language unchanged; it sets the current mode, selects that mode's label
table, updates the mode status label and resets the displayed results. -/
theorem change_mode_frame (tables : Mode → LT) (s : AppState Img' LT) (m : Mode) :
    (changeMode tables s m).strokes = s.strokes ∧
    (changeMode tables s m).redoStack = s.redoStack ∧
    (changeMode tables s m).image = s.image ∧
    (changeMode tables s m).lastPos = s.lastPos ∧
    (changeMode tables s m).lineWidth = s.lineWidth ∧
    (changeMode tables s m).currentLanguage = s.currentLanguage ∧
    (changeMode tables s m).currentMode = m ∧
    (changeMode tables s m).currentLabels = tables m ∧
    (changeMode tables s m).resultText =
      (if s.currentLanguage = Lang.en then "Please draw a character" else "文字を描いてください") ∧
    (changeMode tables s m).confBarValue = 0 ∧
    (changeMode tables s m).tableRows = [] ∧
    (changeMode tables s m).modeLabelText = modeText m s.currentLanguage :=
  ⟨rfl, rfl, rfl, rfl, rfl, rfl, rfl, rfl, rfl, rfl, rfl, rfl⟩

/-! Embedding of `predict` in `HiraganaRecognizer` (src/hiragana_gui.py,
lines 78-99), the single-family hiragana recognizer. -/

/-- What the hiragana `predict` displays in its result label. -/
inductive HiraResult : Type
  | notRecognized
  | recognized (label : String) (conf : ℚ)
deriving DecidableEq

/-- Embedding of `confidence = np.max(predictions)` (line 91); the fold
default 0 is never the maximum for actual softmax outputs (nonnegative,
summing to 1), and the claims are stated for such probability vectors. -/
def maxProb (p : List ℚ) : ℚ := p.foldr max 0

/-- Embedding of `predicted_idx = np.argmax(predictions)` (line 90):
NumPy's argmax returns the first index attaining the maximum. -/
def argmaxFirst (p : List ℚ) : Nat := p.indexOf (maxProb p)

/-- Embedding of lines 93-99: the result label shows "Not recognized as
hiragana" when the maximum probability is below the 0.85 threshold, and the
best label with its confidence otherwise.  The float literal 0.85 is
embedded as 85/100; the comparison `confidence < 0.85` is strict in the
source. -/
def predictDisplay (labels : List String) (p : List ℚ) : HiraResult :=
  if maxProb p < 85 / 100 then HiraResult.notRecognized
  else HiraResult.recognized (labels.getD (argmaxFirst p) "") (maxProb p)

/-- Embedding of lines 81-86 of the hiragana `predict` preprocessing:
`img = self.drawing.resize((48, 48)); img = ImageOps.invert(img);`
`img_array = np.array(img) / 255.0` — the full uncropped canvas is resized,
inverted (pixel becomes 255 - v) and scaled; there is no bounding-box crop,
padding, centering or contrast step.  The final reshape to (1, 48, 48, 1)
is a trivial re-indexing, embedded as the 48×48 grid itself. -/
def hiraPreprocess (resizeFn : Img → Nat → Img) (img : Img) : List (List ℚ) :=
  let resized : Img := resizeFn img 48
  let inverted : Img := resized.map fun row => row.map fun v => 255 - v
  inverted.map fun row => row.map fun v : Nat => (v : ℚ) / 255

/-- C9 (confirmed): the hiragana recognizer displays the best label and its
confidence exactly when the maximum probability is at least 0.85, reporting
"Not recognized as hiragana" below the threshold; and its preprocessing is
exactly the pointwise invert-and-scale of the resized full canvas — every
output entry is (255 - resized pixel)/255, with no crop, padding, centering
or contrast transformation in between. -/
theorem hiragana_threshold_and_preprocess (labels : List String) (p : List ℚ)
    (resizeFn : Img → Nat → Img) (img : Img) :
    (maxProb p < 85 / 100 → predictDisplay labels p = HiraResult.notRecognized) ∧
    (85 / 100 ≤ maxProb p →
      predictDisplay labels p
        = HiraResult.recognized (labels.getD (argmaxFirst p) "") (maxProb p)) ∧
    ((∀ row ∈ resizeFn img 48, ∀ v ∈ row, v ≤ 255) →
      hiraPreprocess resizeFn img
        = (resizeFn img 48).map fun row =>
            row.map fun v : Nat => ((255 : ℚ) - (v : ℚ)) / 255) := by
  refine ⟨?_, ?_, ?_⟩
  · intro h
    simp [predictDisplay, h]
  · intro h
    simp [predictDisplay, not_lt.mpr h]
  · intro hb
    simp only [hiraPreprocess, List.map_map]
    refine List.map_congr_left ?_
    intro row hrow
    simp only [Function.comp, List.map_map]
    refine List.map_congr_left ?_
    intro v hv
    simp only [Function.comp]
    rw [Nat.cast_sub (hb row hrow v hv)]
    norm_num

/-- Witness for `hiragana_threshold_and_preprocess`: below-threshold and
above-threshold probability vectors and a concrete canvas. -/
theorem hiragana_threshold_and_preprocess_witness :
    predictDisplay ["a", "i"] [1 / 2, 1 / 2] = HiraResult.notRecognized ∧
    predictDisplay ["a", "i"] [9 / 10, 1 / 10]
      = HiraResult.recognized
          ((["a", "i"]).getD (argmaxFirst [9 / 10, 1 / 10]) "")
          (maxProb [9 / 10, 1 / 10]) ∧
    hiraPreprocess resizeId blankImg2
      = (resizeId blankImg2 48).map fun row =>
          row.map fun v : Nat => ((255 : ℚ) - (v : ℚ)) / 255 :=
  ⟨(hiragana_threshold_and_preprocess ["a", "i"] [1 / 2, 1 / 2] resizeId blankImg2).1
      (by norm_num [maxProb]),
   (hiragana_threshold_and_preprocess ["a", "i"] [9 / 10, 1 / 10] resizeId blankImg2).2.1
      (by norm_num [maxProb]),
   (hiragana_threshold_and_preprocess ["a", "i"] [9 / 10, 1 / 10] resizeId blankImg2).2.2
      (by decide)⟩

/-! Embedding of the top-5 ranking in `recognize`
(src/hira_kata_kanji_kuzu.py, line 423):
`top_indices = np.argsort(probs)[::-1][:5]`.  NumPy's argsort is ascending;
its default quicksort documents NO particular order among equal values, and
it coincides with a stable insertion sort only for arrays short enough to
fall entirely inside the introsort's insertion-sort cutoff (16 elements).
The embedding below therefore speaks for that short regime — where
`List.insertionSort` is NumPy's exact behavior — and the tie-order
statements are made only for two-class vectors, squarely inside it; for the
program's real probability vectors (49 classes and more) no tie order is
asserted either way. -/

/-- Comparison relation of the argsort: class index `i` sorts before `j`
when its probability is no larger. -/
def probLE (p : List ℚ) (i j : Nat) : Prop := p.getD i 0 ≤ p.getD j 0

instance (p : List ℚ) : DecidableRel (probLE p) := fun i j =>
  inferInstanceAs (Decidable (p.getD i 0 ≤ p.getD j 0))

/-- Embedding of `np.argsort(probs)` for vectors within the insertion-sort
regime (whole array of at most 16 elements), where NumPy's sort runs plain
insertion sort: class indices in ascending probability order.  Beyond that
length NumPy's quicksort leaves the order of equal values unspecified, so
no theorem below constrains ties there. -/
def argsortAsc (p : List ℚ) : List Nat :=
  List.insertionSort (probLE p) (List.range p.length)

/-- Embedding of `np.argsort(probs)[::-1]`: the full descending ranking
order of class indices. -/
def rankIndices (p : List ℚ) : List Nat := (argsortAsc p).reverse

/-- Embedding of `np.argsort(probs)[::-1][:5]`: the indices filling the
top-5 table. -/
def topIndices (p : List ℚ) : List Nat := (rankIndices p).take 5

/-- C3 (counterexample): on the probability vector (1/2, 1/2) the maximum is
duplicated at class indices 0 and 1, and the code's
`np.argsort(probs)[::-1][:5]` lists index 1 first — the HIGHER of the tied
maxima, not the lower index 0 the claim requires. -/
theorem rank_ties_counterexample :
    topIndices [(1 : ℚ) / 2, 1 / 2] = [1, 0] ∧ (1 : Nat) ≠ 0 := by
  constructor
  · have h01 : probLE [(1 : ℚ) / 2, 1 / 2] 0 1 := le_of_eq rfl
    show List.take 5
        ((List.orderedInsert (probLE [(1 : ℚ) / 2, 1 / 2]) 0 [1]).reverse) = [1, 0]
    rw [List.orderedInsert, if_pos h01]
    rfl
  · decide

/-- C3 (amended): the ranking does NOT return the lower class index first
among tied maxima.  For every two-class probability vector whose two
entries are equal — a length at which NumPy's argsort is exactly the
insertion sort embedded here — the reversed argsort lists the higher class
index 1 before the lower index 0, both in the full ranking order and in the
top-5 listing.  For vectors longer than NumPy's 16-element insertion-sort
regime (all real label sets of this program) NumPy documents no order among
equal values, so no universal tie-breaking rule holds in either direction. -/
theorem rank_ties_two_class (a b : ℚ) (h : a = b) :
    topIndices [a, b] = [1, 0] ∧ rankIndices [a, b] = [1, 0] := by
  have h01 : probLE [a, b] 0 1 := le_of_eq h
  constructor
  · show List.take 5 ((List.orderedInsert (probLE [a, b]) 0 [1]).reverse) = [1, 0]
    rw [List.orderedInsert, if_pos h01]
    rfl
  · show (List.orderedInsert (probLE [a, b]) 0 [1]).reverse = [1, 0]
    rw [List.orderedInsert, if_pos h01]
    rfl

/-- Witness for `rank_ties_two_class` on the tied vector (3/10, 3/10). -/
theorem rank_ties_two_class_witness :
    topIndices [(3 : ℚ) / 10, 3 / 10] = [1, 0] ∧
    rankIndices [(3 : ℚ) / 10, 3 / 10] = [1, 0] :=
  rank_ties_two_class ((3 : ℚ) / 10) (3 / 10) rfl

end JpRec
